import Mathlib

/-!
Verification of the filterable hierarchical result store behind
`src/gui/resultstree.h` (class `ResultsTree`).

The repository ships only the class declaration; every member function body
(AddErrorItem, Clear, ShowResults, SaveResults, StripPath, RefreshTree,
SeverityToShowType, ShowTypeToString, EnsureFileItem, AddBacktraceFiles, ...)
lives outside `src/`.  All operational definitions below are therefore
modelled from the specification's words, as marked in their doc comments.
-/

/-- Modelled from the spec: the closed, ordered severity-category enumeration
(`ShowTypes` in the source; `common.h` with its definition is not under
`src/`).  §3: "error, warning, style, performance, portability, information,
and a terminal sentinel marking the count of real categories"; the sentinel
(`SHOW_NONE`, which sizes `bool mShowTypes[SHOW_NONE]`) is never a valid
category for a finding. -/
inductive ShowTypes where
  | error
  | warning
  | style
  | performance
  | portability
  | information
  | showNone
  deriving DecidableEq, Repr

/-- Modelled from the spec: error taxonomy of §7 (`InvalidCategory`,
`IOFailure`). -/
inductive StoreError where
  | invalidCategory
  | ioFailure
  deriving DecidableEq, Repr

/-- Modelled from the spec: the documented fallback category that
`SeverityToShowType` assigns to every unrecognized severity label (§4.1 and
the §9 open question instruct the implementer to pick one fixed fallback
category and document it; we fix `style`). -/
def fallbackCategory : ShowTypes := ShowTypes.style

/-- Modelled from the spec: `classify(label) -> Category`
(`ResultsTree::SeverityToShowType`, body not under `src/`).  Matches the
label against the closed set of recognized severity names case-sensitively;
unrecognized labels map to `fallbackCategory`.  Pure and total (§4.1, §7). -/
def SeverityToShowType (severity : String) : ShowTypes :=
  if severity = "error" then ShowTypes.error
  else if severity = "warning" then ShowTypes.warning
  else if severity = "style" then ShowTypes.style
  else if severity = "performance" then ShowTypes.performance
  else if severity = "portability" then ShowTypes.portability
  else if severity = "information" then ShowTypes.information
  else fallbackCategory

/-- Modelled from the spec: `describe(category) -> text`
(`ResultsTree::ShowTypeToString`, body not under `src/`).  The exact inverse
of `SeverityToShowType` on recognized categories; calling it on the sentinel
is a contract violation and fails with `InvalidCategory` (§4.1, §7). -/
def ShowTypeToString : ShowTypes → Except StoreError String
  | ShowTypes.error => Except.ok "error"
  | ShowTypes.warning => Except.ok "warning"
  | ShowTypes.style => Except.ok "style"
  | ShowTypes.performance => Except.ok "performance"
  | ShowTypes.portability => Except.ok "portability"
  | ShowTypes.information => Except.ok "information"
  | ShowTypes.showNone => Except.error StoreError.invalidCategory

/-- Modelled from the spec: a backtrace entry, §3 `Location`:
`{ file: path, line: non-negative integer }`; immutable. -/
structure Location where
  file : String
  line : Nat
  deriving DecidableEq, Repr

/-- Modelled from the spec: §3 `Finding`:
`{ originFile, category, message, backtrace, identifier }` plus the derived
`hidden` flag recomputed by the visibility filter. -/
structure Finding where
  originFile : String
  category : ShowTypes
  message : String
  backtrace : List Location
  identifier : String
  hidden : Bool
  deriving DecidableEq, Repr

/-- Modelled from the spec: §3 `FileNode`: groups all Findings whose
`originFile` matches one canonical path, with the derived `hidden` flag
(hidden iff no child visible); in the source this is the per-file
`QStandardItem` managed by `EnsureFileItem`. -/
structure FileNode where
  canonicalFile : String
  findings : List Finding
  hidden : Bool
  deriving DecidableEq, Repr

/-- Modelled from the spec: §4.3 `ResultStore`: the ordered sequence of
`FileNode`s (file-insertion order), the data content of `mModel`. -/
structure ResultStore where
  files : List FileNode
  deriving DecidableEq, Repr

/-- Modelled from the spec: §3 `VisibilityMask`: one boolean per real
category ("show this category"); the `bool mShowTypes[SHOW_NONE]` array of
the source, which has no slot for the sentinel. -/
structure VisibilityMask where
  sError : Bool
  sWarning : Bool
  sStyle : Bool
  sPerformance : Bool
  sPortability : Bool
  sInformation : Bool
  deriving DecidableEq, Repr

/-- Reads the mask entry for a category; the sentinel has no slot in
`mShowTypes` and is never shown. -/
def VisibilityMask.get (m : VisibilityMask) : ShowTypes → Bool
  | ShowTypes.error => m.sError
  | ShowTypes.warning => m.sWarning
  | ShowTypes.style => m.sStyle
  | ShowTypes.performance => m.sPerformance
  | ShowTypes.portability => m.sPortability
  | ShowTypes.information => m.sInformation
  | ShowTypes.showNone => false

/-- Updates the mask entry for exactly one category (a sentinel argument is
out of range for the `mShowTypes` array and changes nothing). -/
def VisibilityMask.set (m : VisibilityMask) : ShowTypes → Bool → VisibilityMask
  | ShowTypes.error, b => { m with sError := b }
  | ShowTypes.warning, b => { m with sWarning := b }
  | ShowTypes.style, b => { m with sStyle := b }
  | ShowTypes.performance, b => { m with sPerformance := b }
  | ShowTypes.portability, b => { m with sPortability := b }
  | ShowTypes.information, b => { m with sInformation := b }
  | ShowTypes.showNone, _ => m

/-- Modelled from the spec: §3 `PathPolicy`:
`{ checkDirectory, showFullPath, saveFullPath, saveAllErrors }`; the fields
`mCheckPath`, `mShowFullPath`, `mSaveFullPath`, `mSaveAllErrors` of the
source, mutated only through `UpdateSettings` / `SetCheckDirectory`. -/
structure PathPolicy where
  checkDirectory : String
  showFullPath : Bool
  saveFullPath : Bool
  saveAllErrors : Bool
  deriving DecidableEq, Repr

/-- Modelled from the spec: the canonical (grouping-key) form of a file
path.  The spec fixes no normalization algorithm, only that FileNode
identity is determined solely by this key (§3); we take the key to be the
reported path itself. -/
def canonicalPath (p : String) : String := p

/-- The empty store: no FileNodes at all. -/
def ResultStore.empty : ResultStore := ⟨[]⟩

/-- Recomputes a FileNode's derived flag: hidden iff all child Findings are
hidden (so a FileNode with zero Findings is hidden), §4.4. -/
def FileNode.recomputeHidden (n : FileNode) : FileNode :=
  { n with hidden := n.findings.all (fun f => f.hidden) }

/-- Modelled from the spec: the input of one `addFinding` call (§4.3),
everything the caller reports for a new result. -/
structure FindingInput where
  file : String
  category : ShowTypes
  message : String
  backtrace : List Location
  identifier : String
  deriving DecidableEq, Repr

/-- Builds the Finding a call with this input creates: immutable data plus
the `hidden` flag evaluated from the current mask at insertion time (§4.5
state machine: "initial state for a newly added Finding = evaluate current
mask for its category at insertion time"). -/
def mkFinding (m : VisibilityMask) (i : FindingInput) : Finding :=
  { originFile := canonicalPath i.file
    category := i.category
    message := i.message
    backtrace := i.backtrace
    identifier := i.identifier
    hidden := !(m.get i.category) }

/-- Modelled from the spec: `addFinding` (§4.3), the data effect of
`ResultsTree::AddErrorItem` / `EnsureFileItem` (bodies not under `src/`):
finds or creates the FileNode for the canonicalized file, appends the new
Finding in insertion order, and keeps the touched node's derived flag
eagerly consistent (§5). -/
def addFinding (m : VisibilityMask) (s : ResultStore) (i : FindingInput) : ResultStore :=
  let c := canonicalPath i.file
  if s.files.any (fun n => n.canonicalFile = c) then
    ⟨s.files.map (fun n =>
      if n.canonicalFile = c then
        FileNode.recomputeHidden { n with findings := n.findings ++ [mkFinding m i] }
      else n)⟩
  else
    ⟨s.files ++ [FileNode.recomputeHidden ⟨c, [mkFinding m i], true⟩]⟩

/-- Modelled from the spec: `clear()` (§4.3, `ResultsTree::Clear`, body not
under `src/`): removes all FileNodes and Findings. -/
def Clear (_s : ResultStore) : ResultStore := ResultStore.empty

/-- Modelled from the spec: the traversal `forEach(visitor, includeHidden)`
(§4.3), materialized as the sequence of visited Findings: FileNodes in
file-insertion order, Findings in insertion order within each node; with
`includeHidden = false`, hidden nodes are skipped entirely and hidden
Findings inside visible nodes are skipped too. -/
def ResultStore.forEach (s : ResultStore) (includeHidden : Bool) : List Finding :=
  (s.files.filter (fun n => includeHidden || !n.hidden)).flatMap
    (fun n => n.findings.filter (fun f => includeHidden || !f.hidden))

/-- All Findings of the store, in traversal order. -/
def allFindings (s : ResultStore) : List Finding :=
  s.files.flatMap (fun n => n.findings)

/-- Modelled from the spec: how `AddErrorItem` turns its two parallel
sequences (a list of files and a list of line numbers, see the declaration at
`src/gui/resultstree.h:52-57` and §6: "list of (file, line) backtrace pairs")
into the ordered backtrace: the i-th Location pairs `files[i]` with
`lines[i]`, in report order, never re-sorted (§4.3). -/
def mkBacktrace (files : List String) (lines : List Nat) : List Location :=
  List.zipWith (fun f l => Location.mk f l) files lines

/-- The `FindingInput` an `AddErrorItem` call reports: the severity label is
classified by `SeverityToShowType`, the parallel lists become the backtrace. -/
def errorInput (file severity message : String) (files : List String)
    (lines : List Nat) (id : String) : FindingInput :=
  { file := file
    category := SeverityToShowType severity
    message := message
    backtrace := mkBacktrace files lines
    identifier := id }

/-- Modelled from the spec: `ResultsTree::AddErrorItem` (declaration at
`src/gui/resultstree.h:52-57`, body not under `src/`): one call per
discovered finding, inserting it through `addFinding`. -/
def AddErrorItem (m : VisibilityMask) (s : ResultStore) (file severity message : String)
    (files : List String) (lines : List Nat) (id : String) : ResultStore :=
  addFinding m s (errorInput file severity message files lines id)

/-- One Finding's transition under `setMask(ty, b)`: a Finding of category
`ty` becomes hidden iff `b` is false; every other Finding keeps its flag
(§4.4: "recomputes the hidden flag of every existing Finding whose category
matches"). -/
def setFindingHidden (ty : ShowTypes) (b : Bool) (f : Finding) : Finding :=
  if f.category = ty then { f with hidden := !b } else f

/-- Modelled from the spec: the store effect of `setMask(category, show)`
(`ResultsTree::ShowResults` + `RefreshTree`, bodies not under `src/`):
recompute the hidden flag of every Finding whose category matches, then
recompute every FileNode's derived flag (§4.4). -/
def setMaskStore (ty : ShowTypes) (b : Bool) (s : ResultStore) : ResultStore :=
  ⟨s.files.map (fun n =>
    FileNode.recomputeHidden
      { n with findings := n.findings.map (setFindingHidden ty b) })⟩

/-- Modelled from the spec: `ResultsTree::ShowResults(type, show)`
(declaration at `src/gui/resultstree.h:72`): updates the `mShowTypes` mask
for exactly one category and refreshes the tree. -/
def ShowResults (m : VisibilityMask) (s : ResultStore) (ty : ShowTypes) (b : Bool) :
    VisibilityMask × ResultStore :=
  (m.set ty b, setMaskStore ty b s)

/-- Modelled from the spec: `recomputeAll()` / `ResultsTree::RefreshTree`
(body not under `src/`): full recomputation of every Finding's hidden flag
from the mask and of every FileNode's derived flag (§4.4). -/
def RefreshTree (m : VisibilityMask) (s : ResultStore) : ResultStore :=
  ⟨s.files.map (fun n =>
    FileNode.recomputeHidden
      { n with findings := n.findings.map (fun f => { f with hidden := !(m.get f.category) }) })⟩

/-- Modelled from the spec: which Findings `ResultsTree::SaveResults` /
`SaveErrors` (bodies not under `src/`) emit, in traversal order: every
Finding when `policy.saveAllErrors` is true, otherwise exactly those whose
hidden flag is false (§4.5). -/
def SaveResults (policy : PathPolicy) (s : ResultStore) : List Finding :=
  s.files.flatMap
    (fun n => n.findings.filter (fun f => policy.saveAllErrors || !f.hidden))

/-- Modelled from the spec: `ResultsTree::StripPath(path, saving)`
(declaration at `src/gui/resultstree.h:132`, body not under `src/`), §4.2:
when the relevant full-path flag (`saveFullPath` when saving, `showFullPath`
otherwise) is set the path is returned unchanged; otherwise the
`checkDirectory` prefix is stripped (and the following path separator),
if present, else the path is returned unchanged. -/
def StripPath (policy : PathPolicy) (p : String) (saving : Bool) : String :=
  if (if saving then policy.saveFullPath else policy.showFullPath) then p
  else if policy.checkDirectory.toList.isPrefixOf p.toList then
    let rest := p.toList.drop policy.checkDirectory.toList.length
    match rest with
    | '/' :: rest2 => String.mk rest2
    | _ => String.mk rest
  else p

/-- Modelled from the spec: `PathNormalizer.toDisplay(p, policy)` (§4.2),
`StripPath` keyed on `showFullPath` (saving = false). -/
def toDisplay (policy : PathPolicy) (p : String) : String := StripPath policy p false

/-- Modelled from the spec: `PathNormalizer.toPersisted(p, policy)` (§4.2),
`StripPath` keyed on `saveFullPath` (saving = true). -/
def toPersisted (policy : PathPolicy) (p : String) : String := StripPath policy p true

/-- Left-to-right insertion of a sequence of `addFinding` calls into a store. -/
def addAll (m : VisibilityMask) : ResultStore → List FindingInput → ResultStore
  | s, [] => s
  | s, i :: rest => addAll m (addFinding m s i) rest

/-- Specification-side description: the distinct elements of a list in
first-seen order. -/
def firstSeen : List String → List String
  | [] => []
  | c :: rest => c :: (firstSeen rest).filter (fun d => decide (d ≠ c))

/-- Specification-side description: the FileNode a sequence of inputs builds
for canonical file `c`: exactly the inputs reporting `c`, in order. -/
def nodeOf (m : VisibilityMask) (inputs : List FindingInput) (c : String) : FileNode :=
  let fs := (inputs.filter (fun i => decide (canonicalPath i.file = c))).map (mkFinding m)
  ⟨c, fs, fs.all (fun f => f.hidden)⟩

/-- Specification-side description of the store a sequence of `addFinding`
calls builds: file groups in file-first-seen order, each holding its inputs'
Findings in insertion order (§4.3, §8). -/
def storeOf (m : VisibilityMask) (inputs : List FindingInput) : ResultStore :=
  ⟨(firstSeen (inputs.map (fun i => canonicalPath i.file))).map (nodeOf m inputs)⟩

/-- Specification-side description of the full traversal: the findings that
were added, in insertion order inside each file group, file groups in
first-seen order. -/
def expectedTraversal (m : VisibilityMask) (inputs : List FindingInput) : List Finding :=
  (firstSeen (inputs.map (fun i => canonicalPath i.file))).flatMap
    (fun c => ((inputs.filter (fun i => decide (canonicalPath i.file = c))).map (mkFinding m)))

/-- The §4.4 / §8 derived-flag invariant: every FileNode is hidden iff all
of its Findings are hidden. -/
def Consistent (s : ResultStore) : Prop :=
  ∀ n ∈ s.files, n.hidden = n.findings.all (fun f => f.hidden)

instance : DecidablePred Consistent := fun s =>
  inferInstanceAs (Decidable (∀ n ∈ s.files, n.hidden = n.findings.all (fun f => f.hidden)))

theorem mem_firstSeen {a : String} : ∀ {l : List String}, a ∈ firstSeen l ↔ a ∈ l
  | [] => Iff.rfl
  | c :: rest => by
      simp only [firstSeen, List.mem_cons, List.mem_filter, decide_eq_true_eq,
        mem_firstSeen (l := rest)]
      constructor
      · rintro (rfl | ⟨h, _⟩)
        · exact Or.inl rfl
        · exact Or.inr h
      · rintro (rfl | h)
        · exact Or.inl rfl
        · by_cases hac : a = c
          · exact Or.inl hac
          · exact Or.inr ⟨h, hac⟩

theorem firstSeen_append (c : String) :
    ∀ (l : List String),
      firstSeen (l ++ [c]) = if c ∈ l then firstSeen l else firstSeen l ++ [c]
  | [] => by simp [firstSeen]
  | d :: l => by
      simp only [List.cons_append, firstSeen, List.append_eq]
      rw [firstSeen_append c l]
      by_cases hcl : c ∈ l
      · rw [if_pos hcl, if_pos (List.mem_cons_of_mem d hcl)]
      · by_cases hcd : c = d
        · have h2 : c ∈ d :: l := by rw [hcd]; exact List.mem_cons_self d l
          rw [if_neg hcl, if_pos h2, List.filter_append]
          simp [hcd]
        · have h2 : c ∉ d :: l := by
            intro h
            rcases List.mem_cons.1 h with h | h
            exacts [hcd h, hcl h]
          rw [if_neg hcl, if_neg h2, List.filter_append]
          simp [hcd]

theorem addFinding_found (m : VisibilityMask) (s : ResultStore) (i : FindingInput)
    (h : s.files.any (fun n => n.canonicalFile = canonicalPath i.file) = true) :
    addFinding m s i =
      ⟨s.files.map (fun n =>
        if n.canonicalFile = canonicalPath i.file then
          FileNode.recomputeHidden { n with findings := n.findings ++ [mkFinding m i] }
        else n)⟩ := by
  simp [addFinding, h]

theorem addFinding_notFound (m : VisibilityMask) (s : ResultStore) (i : FindingInput)
    (h : s.files.any (fun n => n.canonicalFile = canonicalPath i.file) = false) :
    addFinding m s i =
      ⟨s.files ++ [FileNode.recomputeHidden ⟨canonicalPath i.file, [mkFinding m i], true⟩]⟩ := by
  simp [addFinding, h]

theorem nodeOf_append_ne (m : VisibilityMask) (inputs : List FindingInput)
    (i : FindingInput) (c : String) (h : ¬ canonicalPath i.file = c) :
    nodeOf m (inputs ++ [i]) c = nodeOf m inputs c := by
  simp [nodeOf, List.filter_append, h]

theorem nodeOf_append_eq (m : VisibilityMask) (inputs : List FindingInput)
    (i : FindingInput) :
    nodeOf m (inputs ++ [i]) (canonicalPath i.file) =
      FileNode.recomputeHidden
        { nodeOf m inputs (canonicalPath i.file) with
          findings :=
            (nodeOf m inputs (canonicalPath i.file)).findings ++ [mkFinding m i] } := by
  simp [nodeOf, List.filter_append, FileNode.recomputeHidden]

theorem nodeOf_findings_of_not_mem (m : VisibilityMask) (inputs : List FindingInput)
    (c : String) (h : c ∉ inputs.map (fun j => canonicalPath j.file)) :
    nodeOf m inputs c = ⟨c, [], true⟩ := by
  have hf : inputs.filter (fun i => decide (canonicalPath i.file = c)) = [] := by
    rw [List.filter_eq_nil_iff]
    intro i hi
    simp only [decide_eq_true_eq]
    intro hcc
    exact h (List.mem_map.2 ⟨i, hi, hcc⟩)
  simp [nodeOf, hf]

theorem addFinding_storeOf (m : VisibilityMask) (inputs : List FindingInput)
    (i : FindingInput) :
    addFinding m (storeOf m inputs) i = storeOf m (inputs ++ [i]) := by
  by_cases hc : canonicalPath i.file ∈ inputs.map (fun j => canonicalPath j.file)
  · have hany : (storeOf m inputs).files.any
        (fun n => n.canonicalFile = canonicalPath i.file) = true := by
      refine List.any_eq_true.2 ?_
      refine ⟨nodeOf m inputs (canonicalPath i.file), ?_, by simp [nodeOf]⟩
      exact List.mem_map_of_mem _ (mem_firstSeen.2 hc)
    have hfs : firstSeen ((inputs ++ [i]).map (fun j => canonicalPath j.file)) =
        firstSeen (inputs.map (fun j => canonicalPath j.file)) := by
      rw [List.map_append, List.map_cons, List.map_nil, firstSeen_append, if_pos hc]
    rw [addFinding_found m _ i hany]
    simp only [storeOf, hfs]
    apply congrArg ResultStore.mk
    rw [List.map_map]
    refine List.map_congr_left ?_
    intro c hcmem
    by_cases hceq : c = canonicalPath i.file
    · subst hceq
      simp only [Function.comp_apply]
      rw [if_pos (show (nodeOf m inputs (canonicalPath i.file)).canonicalFile =
            canonicalPath i.file from rfl)]
      rw [nodeOf_append_eq m inputs i]
    · simp only [Function.comp_apply,
        nodeOf_append_ne m inputs i c (fun h => hceq (Eq.symm h))]
      rw [if_neg]
      simp only [nodeOf]
      exact hceq
  · have hany : (storeOf m inputs).files.any
        (fun n => n.canonicalFile = canonicalPath i.file) = false := by
      rw [← Bool.not_eq_true]
      intro hcon
      obtain ⟨n, hn, hpn⟩ := List.any_eq_true.1 hcon
      obtain ⟨c, hcmem, rfl⟩ := List.mem_map.1 hn
      have : c = canonicalPath i.file := by
        simpa [nodeOf] using hpn
      exact hc (this ▸ mem_firstSeen.1 hcmem)
    have hfs : firstSeen ((inputs ++ [i]).map (fun j => canonicalPath j.file)) =
        firstSeen (inputs.map (fun j => canonicalPath j.file)) ++ [canonicalPath i.file] := by
      rw [List.map_append, List.map_cons, List.map_nil, firstSeen_append, if_neg hc]
    rw [addFinding_notFound m _ i hany]
    simp only [storeOf, hfs]
    apply congrArg ResultStore.mk
    rw [List.map_append]
    apply congrArg₂ (· ++ ·)
    · refine List.map_congr_left ?_
      intro c hcmem
      refine (nodeOf_append_ne m inputs i c ?_).symm
      intro h
      exact hc (h ▸ mem_firstSeen.1 hcmem)
    · rw [List.map_cons, List.map_nil]
      rw [nodeOf_append_eq m inputs i, nodeOf_findings_of_not_mem m inputs _ hc]
      rfl

theorem storeOf_nil (m : VisibilityMask) : storeOf m [] = ResultStore.empty := rfl

theorem addAll_storeOf (m : VisibilityMask) :
    ∀ (rest pre : List FindingInput),
      addAll m (storeOf m pre) rest = storeOf m (pre ++ rest)
  | [], pre => by simp [addAll]
  | i :: rest, pre => by
      rw [addAll, addFinding_storeOf, addAll_storeOf m rest (pre ++ [i])]
      simp

theorem addAll_empty_eq_storeOf (m : VisibilityMask) (inputs : List FindingInput) :
    addAll m ResultStore.empty inputs = storeOf m inputs := by
  have := addAll_storeOf m inputs []
  simpa [storeOf_nil] using this


theorem forEach_true_storeOf (m : VisibilityMask) (inputs : List FindingInput) :
    (storeOf m inputs).forEach true = expectedTraversal m inputs := by
  simp only [ResultStore.forEach, storeOf, expectedTraversal, Bool.true_or,
    List.filter_true, List.flatMap_map]
  rfl

theorem allFindings_setMaskStore (ty : ShowTypes) (b : Bool) (s : ResultStore) :
    allFindings (setMaskStore ty b s) = (allFindings s).map (setFindingHidden ty b) := by
  simp only [allFindings, setMaskStore, List.flatMap_map, List.map_flatMap]
  rfl

theorem forall₂_map_self {α β : Type} (R : α → β → Prop) (g : α → β) (l : List α)
    (h : ∀ a ∈ l, R a (g a)) : List.Forall₂ R l (l.map g) :=
  List.forall₂_map_right_iff.2 (List.forall₂_same.2 h)

theorem consistent_setMaskStore (ty : ShowTypes) (b : Bool) (s : ResultStore) :
    Consistent (setMaskStore ty b s) := by
  intro n hn
  simp only [setMaskStore, List.mem_map] at hn
  obtain ⟨n0, _, rfl⟩ := hn
  rfl

theorem consistent_refreshTree (m : VisibilityMask) (s : ResultStore) :
    Consistent (RefreshTree m s) := by
  intro n hn
  simp only [RefreshTree, List.mem_map] at hn
  obtain ⟨n0, _, rfl⟩ := hn
  rfl

theorem consistent_addFinding (m : VisibilityMask) (s : ResultStore) (i : FindingInput)
    (h : Consistent s) : Consistent (addFinding m s i) := by
  by_cases hc : s.files.any (fun n => n.canonicalFile = canonicalPath i.file) = true
  · rw [addFinding_found m s i hc]
    intro n hn
    simp only [List.mem_map] at hn
    obtain ⟨n0, hn0, rfl⟩ := hn
    by_cases he : n0.canonicalFile = canonicalPath i.file
    · rw [if_pos he]
      rfl
    · rw [if_neg he]
      exact h n0 hn0
  · rw [addFinding_notFound m s i (by simpa using hc)]
    intro n hn
    rcases List.mem_append.1 hn with h1 | h1
    · exact h n h1
    · rw [List.mem_singleton.1 h1]
      rfl

theorem consistent_nil_hidden (s : ResultStore) (h : Consistent s) :
    ∀ n ∈ s.files, n.findings = [] → n.hidden = true := by
  intro n hn hnil
  rw [h n hn, hnil]
  rfl

theorem stripPath_not_prefix (policy : PathPolicy) (p : String) (saving : Bool)
    (h : policy.checkDirectory.toList.isPrefixOf p.toList = false) :
    StripPath policy p saving = p := by
  by_cases hfull : (if saving then policy.saveFullPath else policy.showFullPath) = true
  · simp [StripPath, hfull]
  · simp only [StripPath]
    rw [if_neg hfull, if_neg (by rw [h]; exact Bool.false_ne_true)]

theorem stripPath_full (policy : PathPolicy) (p : String) (saving : Bool)
    (h : (if saving then policy.saveFullPath else policy.showFullPath) = true) :
    StripPath policy p saving = p := by
  simp [StripPath, h]

/-- A mask showing every category, used by concrete witnesses. -/
def maskAll : VisibilityMask := ⟨true, true, true, true, true, true⟩

/-- A sample reported finding, used by concrete witnesses. -/
def sampleInput : FindingInput :=
  ⟨"/src/a.cpp", ShowTypes.style, "unused variable", [⟨"/src/a.cpp", 10⟩], "unusedVar"⟩

/-- A sample one-finding store, used by concrete witnesses. -/
def sampleStore : ResultStore := addAll maskAll ResultStore.empty [sampleInput]

/-- C1: for every sequence of `addFinding` calls (with no clear in between),
a full traversal with `forEach(includeHidden = true)` yields exactly the
findings that were added, in insertion order inside each file group, with
file groups ordered by the first time their canonical file was seen. -/
theorem c1_forEach_yields_added (m : VisibilityMask) (inputs : List FindingInput) :
    (addAll m ResultStore.empty inputs).forEach true = expectedTraversal m inputs := by
  rw [addAll_empty_eq_storeOf, forEach_true_storeOf]

/-- C2: for every store state, category `ty` and boolean `b`, after
`setMask(ty, b)` (`ShowResults`) returns, every Finding of category `ty` has
`hidden = !b`, and every Finding of any other category (same position in the
traversal) is exactly what it was before the call. -/
theorem c2_setMask_frame (m : VisibilityMask) (s : ResultStore) (ty : ShowTypes) (b : Bool) :
    List.Forall₂
      (fun f f2 =>
        f2.category = f.category ∧
        (f.category = ty → f2.hidden = !b) ∧
        (f.category ≠ ty → f2 = f))
      (allFindings s) (allFindings (ShowResults m s ty b).2) := by
  show List.Forall₂ _ (allFindings s) (allFindings (setMaskStore ty b s))
  rw [allFindings_setMaskStore]
  refine forall₂_map_self _ _ _ ?_
  intro f _
  by_cases hcat : f.category = ty
  · exact ⟨by simp [setFindingHidden, hcat], fun _ => by simp [setFindingHidden, hcat],
      fun hne => absurd hcat hne⟩
  · exact ⟨by simp [setFindingHidden, hcat], fun hh => absurd hh hcat,
      fun _ => by simp [setFindingHidden, hcat]⟩

/-- Witness for C2 at a concrete store, category and boolean. -/
theorem c2_setMask_frame_witness :
    List.Forall₂
      (fun f f2 =>
        f2.category = f.category ∧
        (f.category = ShowTypes.style → f2.hidden = !false) ∧
        (f.category ≠ ShowTypes.style → f2 = f))
      (allFindings sampleStore)
      (allFindings (ShowResults maskAll sampleStore ShowTypes.style false).2) :=
  c2_setMask_frame maskAll sampleStore ShowTypes.style false

/-- C3: after every operation (`addFinding`, `setMask`, full recompute), a
FileNode's hidden flag is true iff all of its Findings' hidden flags are
true; in particular a FileNode with zero Findings is hidden. -/
theorem c3_hidden_invariant (m : VisibilityMask) (s : ResultStore) (i : FindingInput)
    (ty : ShowTypes) (b : Bool) (h : Consistent s) :
    Consistent (addFinding m s i) ∧
    Consistent (setMaskStore ty b s) ∧
    Consistent (RefreshTree m s) ∧
    (∀ n ∈ (addFinding m s i).files, n.findings = [] → n.hidden = true) :=
  ⟨consistent_addFinding m s i h, consistent_setMaskStore ty b s,
    consistent_refreshTree m s,
    consistent_nil_hidden _ (consistent_addFinding m s i h)⟩

/-- Witness for C3 at a concrete consistent store. -/
theorem c3_hidden_invariant_witness :
    Consistent (addFinding maskAll sampleStore sampleInput) :=
  (c3_hidden_invariant maskAll sampleStore sampleInput ShowTypes.style false (by decide)).1

/-- C4: for every store state and path policy, export (`SaveResults`) emits
every Finding when `policy.saveAllErrors` is true, regardless of hidden
flags, and exactly the Findings whose hidden flag is false otherwise. -/
theorem c4_saveResults_policy (policy : PathPolicy) (s : ResultStore) :
    SaveResults policy s =
      if policy.saveAllErrors then allFindings s
      else (allFindings s).filter (fun f => !f.hidden) := by
  cases hp : policy.saveAllErrors
  · simp [SaveResults, allFindings, hp, List.filter_flatMap]
  · simp [SaveResults, allFindings, hp]

/-- C5: `toDisplay` (`StripPath` with saving = false) returns every path
that does not start with `policy.checkDirectory` unchanged; it is total by
construction. -/
theorem c5_toDisplay_outside (policy : PathPolicy) (p : String)
    (h : policy.checkDirectory.toList.isPrefixOf p.toList = false) :
    toDisplay policy p = p :=
  stripPath_not_prefix policy p false h

/-- Witness for C5 on a path outside the check directory. -/
theorem c5_toDisplay_outside_witness :
    ("/src".toList.isPrefixOf "/other/b.cpp".toList) = false ∧
    toDisplay ⟨"/src", false, false, false⟩ "/other/b.cpp" = "/other/b.cpp" :=
  ⟨by decide, c5_toDisplay_outside ⟨"/src", false, false, false⟩ "/other/b.cpp" (by decide)⟩

/-- C6 as stated is false on the modelled algorithm: stripping the
check-directory prefix can expose a second occurrence of it, which a second
`toDisplay` strips again.  With checkDirectory "src" and showFullPath off,
`toDisplay` sends "src/src/x" to "src/x" and "src/x" to "x". -/
theorem c6_idempotent_cex :
    ¬ (∀ (policy : PathPolicy) (p : String),
        toDisplay policy (toDisplay policy p) = toDisplay policy p) :=
  fun h => absurd (h ⟨"src", false, false, false⟩ "src/src/x") (by decide)

/-- C6 amended: `StripPath` (hence `toDisplay` with saving = false and
`toPersisted` with saving = true) is idempotent whenever the relevant
full-path flag is set or the check directory is not a prefix of the first
application's result. -/
theorem c6_stripPath_idempotent_of (policy : PathPolicy) (p : String) (saving : Bool)
    (h : (if saving then policy.saveFullPath else policy.showFullPath) = true ∨
      policy.checkDirectory.toList.isPrefixOf (StripPath policy p saving).toList = false) :
    StripPath policy (StripPath policy p saving) saving = StripPath policy p saving := by
  rcases h with h | h
  · rw [stripPath_full policy p saving h, stripPath_full policy p saving h]
  · exact stripPath_not_prefix policy _ saving h

/-- Witness for the amended C6 on a path the strip leaves alone. -/
theorem c6_stripPath_idempotent_of_witness :
    StripPath ⟨"src", false, false, false⟩
        (StripPath ⟨"src", false, false, false⟩ "a/b" false) false =
      StripPath ⟨"src", false, false, false⟩ "a/b" false :=
  c6_stripPath_idempotent_of ⟨"src", false, false, false⟩ "a/b" false (Or.inr (by decide))

/-- C7: `clear()` is idempotent; after `clear()`, `forEach` yields the empty
sequence (with or without hidden nodes), and a subsequent `addFinding`
produces the same store as the same call on a freshly constructed store. -/
theorem c7_clear_semantics (s : ResultStore) (m : VisibilityMask) (i : FindingInput) (b : Bool) :
    Clear (Clear s) = Clear s ∧
    (Clear s).forEach b = [] ∧
    addFinding m (Clear s) i = addFinding m ResultStore.empty i :=
  ⟨rfl, rfl, rfl⟩

/-- C8: `classify` (`SeverityToShowType`) is total, and every label outside
the recognized closed set maps to the single documented fallback category,
which is a real (non-sentinel) category. -/
theorem c8_severity_fallback (s : String)
    (h : s ≠ "error" ∧ s ≠ "warning" ∧ s ≠ "style" ∧ s ≠ "performance" ∧
      s ≠ "portability" ∧ s ≠ "information") :
    SeverityToShowType s = fallbackCategory ∧ fallbackCategory ≠ ShowTypes.showNone := by
  obtain ⟨h1, h2, h3, h4, h5, h6⟩ := h
  refine ⟨?_, by decide⟩
  simp [SeverityToShowType, h1, h2, h3, h4, h5, h6]

/-- Witness for C8 on the spec's example label "bogus". -/
theorem c8_severity_fallback_witness :
    SeverityToShowType "bogus" = fallbackCategory ∧
    fallbackCategory ≠ ShowTypes.showNone :=
  c8_severity_fallback "bogus" (by decide)

/-- C9: `describe` (`ShowTypeToString`) returns, for every non-sentinel
category, the label that `classify` maps back to it, and it fails with
`InvalidCategory` exactly on the sentinel (the embedding's enumeration has
no other out-of-range values) and in no other case. -/
theorem c9_describe_inverse :
    (∀ t : ShowTypes, t ≠ ShowTypes.showNone →
      ∃ lab, ShowTypeToString t = Except.ok lab ∧ SeverityToShowType lab = t) ∧
    (∀ t : ShowTypes,
      ShowTypeToString t = Except.error StoreError.invalidCategory ↔
        t = ShowTypes.showNone) := by
  constructor
  · intro t ht
    cases t with
    | error => exact ⟨"error", rfl, by decide⟩
    | warning => exact ⟨"warning", rfl, by decide⟩
    | style => exact ⟨"style", rfl, by decide⟩
    | performance => exact ⟨"performance", rfl, by decide⟩
    | portability => exact ⟨"portability", rfl, by decide⟩
    | information => exact ⟨"information", rfl, by decide⟩
    | showNone => exact absurd rfl ht
  · intro t
    cases t <;> simp [ShowTypeToString]

/-- Witness for C9 at the error category. -/
theorem c9_describe_inverse_witness :
    ∃ lab, ShowTypeToString ShowTypes.error = Except.ok lab ∧
      SeverityToShowType lab = ShowTypes.error :=
  c9_describe_inverse.1 ShowTypes.error (by decide)

/-- C10: `AddErrorItem` receives the backtrace as two parallel sequences;
when they have the same length n, the created Finding's backtrace has
exactly n Locations in the given order, the i-th pairing `files[i]` with
`lines[i]`, and a call with n = 0 succeeds and creates a Finding with an
empty backtrace. -/
theorem c10_addErrorItem_backtrace (m : VisibilityMask) (s : ResultStore)
    (file severity message : String) (files : List String) (lines : List Nat)
    (id2 : String) (h : files.length = lines.length) :
    AddErrorItem m s file severity message files lines id2 =
        addFinding m s (errorInput file severity message files lines id2) ∧
    (errorInput file severity message files lines id2).backtrace =
        mkBacktrace files lines ∧
    (mkFinding m (errorInput file severity message files lines id2)).backtrace =
        mkBacktrace files lines ∧
    (mkBacktrace files lines).length = files.length ∧
    (∀ k (hk : k < files.length) (hk2 : k < lines.length)
        (hk3 : k < (mkBacktrace files lines).length),
      (mkBacktrace files lines).get ⟨k, hk3⟩ =
        Location.mk (files.get ⟨k, hk⟩) (lines.get ⟨k, hk2⟩)) ∧
    mkBacktrace ([] : List String) ([] : List Nat) = ([] : List Location) := by
  refine ⟨rfl, rfl, rfl, ?_, ?_, rfl⟩
  · simp [mkBacktrace, List.length_zipWith, h]
  · intro k hk hk2 hk3
    simp [mkBacktrace, List.get_eq_getElem, List.getElem_zipWith]

/-- Witness for C10 on a two-entry backtrace. -/
theorem c10_addErrorItem_backtrace_witness :
    (mkBacktrace ["x.c", "y.c"] [3, 4]).length = (["x.c", "y.c"] : List String).length :=
  (c10_addErrorItem_backtrace maskAll ResultStore.empty "x.c" "error" "msg"
    ["x.c", "y.c"] [3, 4] "id0" (by decide)).2.2.2.1
